import Mathlib

/-!
Verification of the `rust-hkt` repository: an encoding of higher-kinded
types in Rust via a `HKT`/`Functor` trait pair, instantiated once for the
optional-value container `Option<T>`.

The embedding is shallow: the type-level members of the `HKT<U>` impl for
`Option<T>` become Lean type functions, and the runtime operation `fmap`
becomes a pure Lean function transcribed branch-for-branch from the Rust
`match`. Since `fmap` takes `&self`, a call is additionally modelled with
explicit state passing (`fmap_call`): the pair of the returned value and
the receiver after the call, read off from each branch of the source body
(both branches only read `*self`, never assign). `fmap_traced` instruments
each branch with the number of times the supplied function is invoked.
-/

namespace part2

/-- Associated type `C` of `impl<T, U> HKT<U> for Option<T>`: `type C = T;`. -/
def HKT_C (T : Type) (_U : Type) : Type := T

/-- Associated type `T` of `impl<T, U> HKT<U> for Option<T>`: `type T = Option<U>;`. -/
def HKT_T (_T : Type) (U : Type) : Type := Option U

/-- The body of `Functor::fmap` in `impl<T, U> Functor<U> for Option<T>`:
`match *self { Some(ref value) => Some(f(value)), None => None }`. -/
def fmap {T U : Type} (self : Option T) (f : T → U) : Option U :=
  match self with
  | some value => some (f value)
  | none => none

/-- The call `self.fmap(f)` with the receiver passed and returned explicitly:
the second component is the receiver after the call. In each branch of the
source body the receiver is only read, so the branch returns it as it was. -/
def fmap_call {T U : Type} (self : Option T) (f : T → U) : Option U × Option T :=
  match self with
  | some value => (some (f value), some value)
  | none => (none, none)

/-- The body of `fmap` instrumented with the number of invocations of `f`:
the `Some` branch calls `f` once, the `None` branch never calls it. -/
def fmap_traced {T U : Type} (self : Option T) (f : T → U) : Option U × Nat :=
  match self with
  | some value => (some (f value), 1)
  | none => (none, 0)

/-- The body of `Functor2::fmap` in `impl<T, U, B> Functor2<U, B> for Option<T>`
(the attempted fix whose trait bound constrains `Self::T`); its body is the
same `match` as `Functor::fmap`. -/
def Functor2_fmap {T U : Type} (self : Option T) (f : T → U) : Option U :=
  match self with
  | some value => some (f value)
  | none => none

end part2

namespace part2_alternate

/-- Associated type `C` of `impl<T, U> HKT<U> for Option<T>` in `part2_alternate`. -/
def HKT_C (T : Type) (_U : Type) : Type := T

/-- Associated type `T` of `impl<T, U> HKT<U> for Option<T>` in `part2_alternate`. -/
def HKT_T (_T : Type) (U : Type) : Type := Option U

/-- The body of `Functor::fmap` in `part2_alternate`:
`match *self { Some(ref value) => Some(f(value)), None => None }`. -/
def fmap {T U : Type} (self : Option T) (f : T → U) : Option U :=
  match self with
  | some value => some (f value)
  | none => none

/-- The call `self.fmap(f)` in `part2_alternate` with the receiver passed and
returned explicitly, read off branch-for-branch from the source body. -/
def fmap_call {T U : Type} (self : Option T) (f : T → U) : Option U × Option T :=
  match self with
  | some value => (some (f value), some value)
  | none => (none, none)

end part2_alternate

/-- C1: for every optional container and function, `fmap` maps a present value
`Some v` to `Some (f v)` and maps `None` to `None`; on `None` the function is
invoked zero times. This holds for the `part2` and `part2_alternate` impls. -/
theorem fmap_present_absent : ∀ (T U : Type) (f : T → U) (v : T),
    part2.fmap (some v) f = some (f v) ∧
    part2.fmap (none : Option T) f = none ∧
    (part2.fmap_traced (none : Option T) f).2 = 0 ∧
    part2_alternate.fmap (some v) f = some (f v) ∧
    part2_alternate.fmap (none : Option T) f = none := by
  intro T U f v
  exact ⟨rfl, rfl, rfl, rfl, rfl⟩

/-- C2: identity law — `fmap` with the identity function returns the input
container unchanged, for present and absent containers alike. -/
theorem fmap_id : ∀ (T : Type) (x : Option T), part2.fmap x (fun a => a) = x := by
  intro T x
  cases x with
  | some v => rfl
  | none => rfl

/-- C3: composition law — mapping with `f` and then with `g` equals mapping
once with the composition of `g` after `f`, for every optional container. -/
theorem fmap_comp : ∀ (T U V : Type) (x : Option T) (f : T → U) (g : U → V),
    part2.fmap (part2.fmap x f) g = part2.fmap x (fun a => g (f a)) := by
  intro T U V x f g
  cases x with
  | some v => rfl
  | none => rfl

/-- C4: shape preservation — `fmap` never turns a present container into an
absent one or vice versa: presence and absence of the result coincide with
those of the input, for every supplied function. -/
theorem fmap_shape : ∀ (T U : Type) (f : T → U) (x : Option T),
    (part2.fmap x f).isSome = x.isSome ∧ (part2.fmap x f).isNone = x.isNone := by
  intro T U f x
  cases x with
  | some v => exact ⟨rfl, rfl⟩
  | none => exact ⟨rfl, rfl⟩

/-- C6: in the `HKT<U>` instance for the optional container, `Current` is the
wrapped element type `T` and `Applied(U)` is the same optional container kind
applied to `U`, i.e. `Option U`, for every target type `U` — in both the
`part2` and `part2_alternate` declarations. -/
theorem hkt_option_types : ∀ (T U : Type),
    part2.HKT_C T U = T ∧ part2.HKT_T T U = Option U ∧
    part2_alternate.HKT_C T U = T ∧ part2_alternate.HKT_T T U = Option U := by
  intro T U
  exact ⟨rfl, rfl, rfl, rfl⟩

/-- C7: the `part2` and `part2_alternate` encodings are extensionally equal:
their `HKT` type relations agree on every pair of types, and their `fmap`
implementations return the same result on every container and function. -/
theorem part2_alternate_equiv :
    part2.HKT_C = part2_alternate.HKT_C ∧
    part2.HKT_T = part2_alternate.HKT_T ∧
    ∀ (T U : Type) (x : Option T) (f : T → U),
      part2.fmap x f = part2_alternate.fmap x f := by
  refine ⟨rfl, rfl, ?_⟩
  intro T U x f
  cases x with
  | some v => rfl
  | none => rfl

/-- C8: concrete scenario — mapping multiply-by-2 over `Some 1` yields
`Some 2`, and mapping it over `None` yields `None`. -/
theorem fmap_concrete :
    part2.fmap (some (1 : Int)) (fun i => i * 2) = some 2 ∧
    part2.fmap (none : Option Int) (fun i => i * 2) = none := by
  exact ⟨rfl, rfl⟩

/-- C9: frame property — a call to `fmap` leaves the receiver unchanged (the
state component returned by the explicit-state model equals the input), and
the returned value is the freshly produced mapped container; this holds for
the `part2` and `part2_alternate` impls. -/
theorem fmap_no_mutation : ∀ (T U : Type) (x : Option T) (f : T → U),
    (part2.fmap_call x f).2 = x ∧
    (part2.fmap_call x f).1 = part2.fmap x f ∧
    (part2_alternate.fmap_call x f).2 = x ∧
    (part2_alternate.fmap_call x f).1 = part2_alternate.fmap x f := by
  intro T U x f
  cases x with
  | some v => exact ⟨rfl, rfl, rfl, rfl⟩
  | none => exact ⟨rfl, rfl, rfl, rfl⟩

/-- C10: the `Functor2::fmap` implementation for the optional container is
extensionally equal to the `Functor::fmap` implementation: both return the
same result on every input container and function. -/
theorem functor2_fmap_equiv : ∀ (T U : Type) (x : Option T) (f : T → U),
    part2.Functor2_fmap x f = part2.fmap x f := by
  intro T U x f
  cases x with
  | some v => rfl
  | none => rfl
